import Mathlib

/-!
# Verification of the har-tui filter/index/streaming/timeline core

Shallow embedding of the Go sources of `cnharrison/har-tui`:
`internal/util/slice.go`, `internal/har/utils.go`, the current snapshot of
the streaming loader and index (`src/unnamed/part_001`, package `har`),
`internal/filter/filter.go` (first, current snapshot) and
`internal/ui/waterfall.go`.

Modelling conventions:
* Go `int` is `Int`; Go `float64` values that the claims reason about
  (entry durations, timestamps offsets) are modelled by exact rationals `ℚ`.
* External Go standard-library calls (`net/url.Parse`,
  `base64.StdEncoding.DecodeString`) are not code of this repository; they
  are passed in as an explicit environment `GoEnv` of pure functions, so
  every embedded function is parametric in the library behaviour and
  witnesses instantiate it with concrete tables.
* Go map iteration order (`for k, v := range m`) is unspecified and
  randomized at runtime; maps are embedded as insertion-ordered association
  lists and every function that iterates a map takes the enumeration of the
  map's buckets as an explicit argument, quantified over all permutations
  of the association list.
-/

namespace HarTui

/-- Result of a successful `net/url.Parse`: the components the repository
reads (`Scheme`, `Host`, `Path`, `RawQuery`). -/
structure GoURL where
  scheme : String
  host : String
  path : String
  rawQuery : String
deriving DecidableEq

/-- The external Go standard-library surface used by the embedded code.
`parseURL s = none` models `url.Parse(s)` returning an error;
`b64decode s = none` models `base64.StdEncoding.DecodeString(s)` failing. -/
structure GoEnv where
  parseURL : String → Option GoURL
  b64decode : String → Option String

/-- Substring occurrence on character lists (`strings.Contains` semantics:
the empty pattern occurs in every string). -/
def charsContain (hay pat : List Char) : Bool :=
  match hay with
  | [] => pat.isEmpty
  | _ :: t => pat.isPrefixOf hay || charsContain t pat

/-- Go `strings.Contains s sub`. -/
def goContains (s sub : String) : Bool :=
  charsContain s.toList sub.toList

/-- Go `strings.ToLower` / `strings.ToUpper` (ASCII case mapping,
character by character; byte-position iteration replaced by a list map so
the kernel can evaluate it). -/
def goToLower (s : String) : String := ⟨s.data.map Char.toLower⟩

def goToUpper (s : String) : String := ⟨s.data.map Char.toUpper⟩

/-- Go `strings.HasSuffix s suf`. -/
def goHasSuffix (s suf : String) : Bool :=
  suf.toList.isSuffixOf s.toList

/-- Truncation toward zero, the semantics of Go's `int(x)` conversion from
`float64`, on exact rationals. -/
def goTrunc (q : ℚ) : Int :=
  if q < 0 then -⌊-q⌋ else ⌊q⌋

/-! ## Data model (package `har`, type snapshot `src/unnamed/part_000`)

The current entry type additionally carries Chrome's `_resourceType` hint:
`GetRequestType` in `internal/har/utils.go` reads `entry.ResourceType` as a
string that is empty when the field is absent, so the field is included
here with that type. -/

structure HARHeader where
  Name : String
  Value : String
deriving DecidableEq, Inhabited

structure HARCookie where
  Name : String
  Value : String
  Domain : String
  Path : String
  Secure : Bool
  HTTPOnly : Bool
deriving DecidableEq, Inhabited

structure HARPostData where
  MimeType : String
  Text : String
deriving DecidableEq, Inhabited

structure HARRequest where
  Method : String
  URL : String
  HTTPVersion : String
  Headers : List HARHeader
  Cookies : List HARCookie
  PostData : Option HARPostData
deriving DecidableEq, Inhabited

structure HARContent where
  Size : Int
  MimeType : String
  Text : String
  Encoding : String
deriving DecidableEq, Inhabited

structure HARResponse where
  Status : Int
  StatusText : String
  HTTPVersion : String
  Headers : List HARHeader
  Cookies : List HARCookie
  Content : HARContent
deriving DecidableEq, Inhabited

structure HARTimings where
  Blocked : ℚ
  DNS : ℚ
  Connect : ℚ
  Send : ℚ
  Wait : ℚ
  Receive : ℚ
  SSL : ℚ
deriving DecidableEq, Inhabited

structure HAREntry where
  StartedDateTime : String
  Time : ℚ
  Request : HARRequest
  Response : HARResponse
  Timings : HARTimings
  ResourceType : String
deriving DecidableEq, Inhabited

structure HARLog where
  Version : String
  Entries : List HAREntry
deriving DecidableEq, Inhabited

structure HARFile where
  Log : HARLog
deriving DecidableEq, Inhabited

/-- Position lists are Go `[]int`. Safe indexed read used only at in-range
positions. -/
def entryAt (entries : List HAREntry) (i : Int) : HAREntry :=
  entries.getD i.toNat default

/-- The list of all positions `0 .. n-1` as Go ints. -/
def posRange (n : Nat) : List Int :=
  (List.range n).map (Nat.cast : Nat → Int)

/-! ## `internal/util/slice.go` -/

/-- `IntersectIndices` from `internal/util/slice.go`: build the member set
of `a` (Go `map[int]bool`), then keep, in order, the elements of `b` that
are in it; empty operands short-circuit to the empty list. -/
def IntersectIndices (a b : List Int) : List Int :=
  if a.isEmpty || b.isEmpty then []
  else
    let setA : Finset Int := a.foldl (fun s v => insert v s) ∅
    b.foldl (fun result v => if v ∈ setA then result.concat v else result) []

/-! ## `internal/har/utils.go`: classifier and CORS heuristic -/

/-- `DecodeBase64` from `internal/har/utils.go`: decode when the encoding
tag is `base64` and the text is non-empty; on a decode error the raw text
is returned unchanged. -/
def DecodeBase64 (env : GoEnv) (text encoding : String) : String :=
  if encoding == "base64" && text != "" then
    match env.b64decode text with
    | some decoded => decoded
    | none => text
  else text

/-- The `switch strings.ToLower(entry.ResourceType)` block of
`GetRequestType`; `none` means the switch fell through (empty or unknown
hint). -/
def resourceTypeLabel (rt : String) : Option String :=
  if rt == "" then none
  else
    let r := (goToLower rt)
    if r == "image" then some "img"
    else if r == "stylesheet" then some "css"
    else if r == "script" then some "js"
    else if r == "document" then some "doc"
    else if r == "media" then some "media"
    else if r == "manifest" then some "manifest"
    else if r == "websocket" then some "ws"
    else if r == "fetch" || r == "xhr" then some "fetch"
    else if r == "wasm" then some "wasm"
    else none

/-- The `switch { case strings.Contains(contentType, ...) }` block of
`GetRequestType`, applied to one lower-cased `Content-Type` value. -/
def contentTypeCase (ct : String) : Option String :=
  if goContains ct "text/html" then some "doc"
  else if goContains ct "text/css" then some "css"
  else if goContains ct "javascript" || goContains ct "ecmascript" then some "js"
  else if goContains ct "image/" then some "img"
  else if goContains ct "audio/" || goContains ct "video/" then some "media"
  else if goContains ct "application/manifest" || goContains ct "text/cache-manifest" then
    some "manifest"
  else if goContains ct "application/wasm" then some "wasm"
  else if goContains ct "application/json" || goContains ct "application/xml"
      || goContains ct "text/xml" then some "fetch"
  else none

/-- The response-header loop of `GetRequestType`: the first `Content-Type`
header whose value matches a case decides; non-matching `Content-Type`
headers fall through to the next header. -/
def contentTypeLabel (headers : List HARHeader) : Option String :=
  headers.findSome? (fun h =>
    if (goToLower h.Name) == "content-type" then contentTypeCase (goToLower h.Value) else none)

/-- The path-extension `switch` of `GetRequestType` (path already
lower-cased). -/
def extensionLabel (path : String) : Option String :=
  if goHasSuffix path ".html" || goHasSuffix path ".htm" then some "doc"
  else if goHasSuffix path ".css" then some "css"
  else if goHasSuffix path ".js" || goHasSuffix path ".mjs" then some "js"
  else if goHasSuffix path ".png" || goHasSuffix path ".jpg" || goHasSuffix path ".jpeg"
      || goHasSuffix path ".gif" || goHasSuffix path ".svg" || goHasSuffix path ".webp"
      || goHasSuffix path ".ico" then some "img"
  else if goHasSuffix path ".mp4" || goHasSuffix path ".webm" || goHasSuffix path ".ogg"
      || goHasSuffix path ".mp3" || goHasSuffix path ".wav" || goHasSuffix path ".flac" then
    some "media"
  else if goHasSuffix path ".wasm" then some "wasm"
  else if goHasSuffix path ".manifest" || goHasSuffix path ".webmanifest" then some "manifest"
  else none

/-- The request-header loop of `GetRequestType` looking for XHR/fetch
evidence (both branches return `"fetch"`, so the loop is an `any`). -/
def xhrHeaderEvidence (headers : List HARHeader) : Bool :=
  headers.any (fun h =>
    let n := (goToLower h.Name)
    let v := (goToLower h.Value)
    (n == "x-requested-with" && v == "xmlhttprequest")
      || (n == "accept" && (goContains v "application/json" || goContains v "application/xml")))

/-- `IsCORSError` from `internal/har/utils.go`. -/
def IsCORSError (env : GoEnv) (entry : HAREntry) : Bool :=
  if entry.Response.Status ≠ 0 then false
  else
    let method := (goToUpper entry.Request.Method)
    if method == "OPTIONS" then
      entry.Request.Headers.any (fun h => (goToLower h.Name) == "access-control-request-method")
    else if entry.Request.Headers.any (fun h =>
        (goToLower h.Name) == "origin"
          || ((goToLower h.Name) == "sec-fetch-mode" && (goToLower h.Value) == "cors")) then
      true
    else if method == "GET" then
      match env.parseURL entry.Request.URL with
      | none => false
      | some u =>
        let requestHost := u.host
        let hasCrossOrigin := entry.Request.Headers.any (fun h =>
          (goToLower h.Name) == "referer" &&
            (match env.parseURL h.Value with
             | some refURL => requestHost != "" && refURL.host != "" && requestHost != refURL.host
             | none => false))
        let hasContentTypeJson := entry.Request.Headers.any (fun h =>
          (goToLower h.Name) == "content-type" && goContains (goToLower h.Value) "application/json")
        hasCrossOrigin && hasContentTypeJson
    else false

/-- `GetRequestType` from `internal/har/utils.go`: the classification
cascade, translated branch for branch (note the early `return "other"`
when `url.Parse` fails, before any later rule runs). -/
def GetRequestType (env : GoEnv) (entry : HAREntry) : String :=
  if IsCORSError env entry then "cors"
  else
    match env.parseURL entry.Request.URL with
    | none => "other"
    | some u =>
      let path := (goToLower u.path)
      if u.scheme == "ws" || u.scheme == "wss" then "ws"
      else
        match resourceTypeLabel entry.ResourceType with
        | some label => label
        | none =>
          match contentTypeLabel entry.Response.Headers with
          | some label => label
          | none =>
            match extensionLabel path with
            | some label => label
            | none =>
              if xhrHeaderEvidence entry.Request.Headers then "fetch"
              else if path == "/" || path == "" then "doc"
              else if goContains path "/api/" || goContains path "/rest/"
                  || goContains path "/graphql" then "fetch"
              else "other"

/-- The comprehensive text predicate, defined identically as
`FilterState.matchesTextSearch` in `internal/filter/filter.go` and
`EntryIndex.matchesTextSearch` in the streaming snapshot
(`src/unnamed/part_001`); `searchText` is already lower-cased by the
callers. Body-size caps are byte lengths (Go `len` on strings). -/
def matchesTextSearch (env : GoEnv) (entry : HAREntry) (searchText : String) : Bool :=
  (match env.parseURL entry.Request.URL with
   | some u => goContains (goToLower u.host) searchText || goContains (goToLower u.path) searchText
       || goContains (goToLower u.rawQuery) searchText
   | none => false)
  || goContains (goToLower entry.Request.Method) searchText
  || entry.Request.Headers.any (fun h =>
       goContains (goToLower h.Name) searchText || goContains (goToLower h.Value) searchText)
  || entry.Response.Headers.any (fun h =>
       goContains (goToLower h.Name) searchText || goContains (goToLower h.Value) searchText)
  || goContains (goToLower entry.Response.StatusText) searchText
  || goContains (goToLower entry.Response.Content.MimeType) searchText
  || (match entry.Request.PostData with
      | some pd => pd.Text != "" && pd.Text.utf8ByteSize ≤ 10000
          && goContains (goToLower pd.Text) searchText
      | none => false)
  || (entry.Response.Content.Text != "" &&
      (let bodyText := DecodeBase64 env entry.Response.Content.Text entry.Response.Content.Encoding
       (bodyText.utf8ByteSize ≤ 10000 : Bool) && goContains (goToLower bodyText) searchText))
  || entry.Request.Cookies.any (fun c =>
       goContains (goToLower c.Name) searchText || goContains (goToLower c.Value) searchText)
  || entry.Response.Cookies.any (fun c =>
       goContains (goToLower c.Name) searchText || goContains (goToLower c.Value) searchText)

/-! ## `EntryIndex` (current snapshot, `src/unnamed/part_001`)

Go maps are embedded as insertion-ordered association lists with unique
keys; `map[k] = append(map[k], i)` is `mapAppend`. -/

structure EntryIndex where
  byMethod : List (String × List Int)
  byStatus : List (Int × List Int)
  byMime : List (String × List Int)
  byHost : List (String × List Int)
  byPath : List (String × List Int)
  byType : List (String × List Int)
deriving DecidableEq

def NewEntryIndex : EntryIndex :=
  ⟨[], [], [], [], [], []⟩

def mapAppend {κ : Type} [BEq κ] (m : List (κ × List Int)) (k : κ) (x : Int) :
    List (κ × List Int) :=
  match m.lookup k with
  | some _ => m.map (fun pr => if pr.1 == k then (pr.1, pr.2 ++ [x]) else pr)
  | none => m ++ [(k, [x])]

/-- `EntryIndex.AddEntry`: update every dimension; host/path only when the
URL parses. -/
def AddEntry (env : GoEnv) (idx : EntryIndex) (entry : HAREntry) (index : Int) : EntryIndex :=
  let idx1 := { idx with
    byMethod := mapAppend idx.byMethod entry.Request.Method index
    byStatus := mapAppend idx.byStatus entry.Response.Status index
    byMime := mapAppend idx.byMime entry.Response.Content.MimeType index }
  let idx2 :=
    match env.parseURL entry.Request.URL with
    | some u => { idx1 with
        byHost := mapAppend idx1.byHost u.host index
        byPath := mapAppend idx1.byPath u.path index }
    | none => idx1
  { idx2 with byType := mapAppend idx2.byType (GetRequestType env entry) index }

/-- `EntryIndex.GetByType` (the returned copy, as a value). -/
def GetByType (idx : EntryIndex) (requestType : String) : List Int :=
  (idx.byType.lookup requestType).getD []

/-- `EntryIndex.GetErrorIndices` from `src/unnamed/part_001`: iterate the
status buckets, appending the bucket lists whose status is `≥ 400` or
`0`. The bucket enumeration (`for status, indices := range idx.byStatus`)
is a Go map iteration whose order is unspecified; it is an explicit
argument here, constrained to be a permutation of `byStatus` by theorems. -/
def GetErrorIndices (statusBuckets : List (Int × List Int)) : List Int :=
  statusBuckets.foldl
    (fun result pr => if 400 ≤ pr.1 ∨ pr.1 = 0 then result ++ pr.2 else result) []

/-- `EntryIndex.FilterByText` from `src/unnamed/part_001`. -/
def FilterByText (env : GoEnv) (entries : List HAREntry) (text : String) : List Int :=
  if text == "" then posRange entries.length
  else
    let t := (goToLower text)
    (posRange entries.length).filter (fun i => matchesTextSearch env (entryAt entries i) t)

/-- The index built by the streaming loader: `AddEntry` over positions
`0 .. n-1` in file order. -/
def buildIndexAux (env : GoEnv) (idx : EntryIndex) (pos : Int) : List HAREntry → EntryIndex
  | [] => idx
  | e :: rest => buildIndexAux env (AddEntry env idx e pos) (pos + 1) rest

def buildIndex (env : GoEnv) (entries : List HAREntry) : EntryIndex :=
  buildIndexAux env NewEntryIndex 0 entries

/-! ## `internal/filter/filter.go` (current snapshot) -/

structure FilterState where
  FilterText : String
  ShowErrorsOnly : Bool
  SortBySlowest : Bool
  ActiveTypeFilter : String
deriving DecidableEq, Inhabited

def NewFilterState : FilterState :=
  ⟨"", false, false, "all"⟩

/-- One iteration of the `FilterEntries` loop: `true` when position `i` is
kept (none of the three `continue`s fires). -/
def keepEntry (env : GoEnv) (f : FilterState) (entry : HAREntry) : Bool :=
  !(f.ShowErrorsOnly && entry.Response.Status < 400 && entry.Response.Status ≠ 0)
  && (f.FilterText == "" || matchesTextSearch env entry (goToLower f.FilterText))
  && (f.ActiveTypeFilter == "all" || GetRequestType env entry == f.ActiveTypeFilter)

/-- `sort.Slice(result, func(i, j) { return e[r[i]].Time > e[r[j]].Time })`,
modelled as a deterministic sort by non-increasing `Time`; the claims
settled here depend only on the sorted result being a permutation and on
the model being a function. -/
def sortBySlowestGo (entries : List HAREntry) (l : List Int) : List Int :=
  l.insertionSort (fun i j => (entryAt entries i).Time ≥ (entryAt entries j).Time)

/-- `FilterState.FilterEntries` (legacy naive O(n) re-scan). -/
def FilterEntries (env : GoEnv) (f : FilterState) (entries : List HAREntry) : List Int :=
  let filtered := (posRange entries.length).filter (fun i => keepEntry env f (entryAt entries i))
  if f.SortBySlowest then sortBySlowestGo entries filtered else filtered

/-- `FilterState.FilterEntriesWithIndex`. `statusBuckets` is the
enumeration of `index.byStatus` seen by `GetErrorIndices`' map range. -/
def FilterEntriesWithIndex (env : GoEnv) (f : FilterState) (entries : List HAREntry)
    (index : EntryIndex) (statusBuckets : List (Int × List Int)) : List Int :=
  let result := if f.ActiveTypeFilter == "all" then posRange entries.length
    else GetByType index f.ActiveTypeFilter
  let result := if f.ShowErrorsOnly then
      IntersectIndices result (GetErrorIndices statusBuckets)
    else result
  let result := if f.FilterText != "" then
      IntersectIndices result (FilterByText env entries f.FilterText)
    else result
  if f.SortBySlowest then sortBySlowestGo entries result else result

/-! ## Streaming loader (`src/unnamed/part_001`)

The decoder side (`json.Decoder` tokens over a file) is abstracted into a
script: the claims concern which callback events fire and how the
store/index evolve, which depend only on the sequence of per-entry decode
results and on where a failure occurs. -/

/-- The result of one `decoder.Decode(&entry)` in the entries array. -/
inductive EntryItem
  | ok (e : HAREntry)
  | bad
deriving DecidableEq

/-- One callback invocation (`onEntryAdded`, `onProgress`, `onError`,
`onComplete`). -/
inductive LoadEvent
  | entryAdded (e : HAREntry) (index : Int)
  | progress (count : Nat)
  | errored
  | completed
deriving DecidableEq

structure LoaderState where
  entries : List HAREntry
  index : EntryIndex
deriving DecidableEq

def NewStreamingLoader : LoaderState :=
  ⟨[], NewEntryIndex⟩

/-- The `for decoder.More()` loop of `StreamingLoader.parseEntries` plus
its final progress call. Per decoded entry: append + `AddEntry` (one
critical section), fire `onEntryAdded`, and fire `onProgress` whenever the
running count reaches a multiple of the hard-coded `batchSize := 50`. A
decode failure returns immediately (error flag `true`), firing nothing
further. -/
def parseEntriesAux (env : GoEnv) (s : LoaderState) (entryCount : Nat) :
    List EntryItem → LoaderState × List LoadEvent × Bool
  | [] => (s, [.progress entryCount], false)
  | .bad :: _ => (s, [], true)
  | .ok e :: rest =>
    let index : Int := s.entries.length
    let s1 : LoaderState := ⟨s.entries ++ [e], AddEntry env s.index e index⟩
    let c1 := entryCount + 1
    let next := parseEntriesAux env s1 c1 rest
    let head := if c1 % 50 == 0 then [LoadEvent.entryAdded e index, .progress c1]
      else [LoadEvent.entryAdded e index]
    (next.1, head ++ next.2.1, next.2.2)

def parseEntries (env : GoEnv) (s : LoaderState) (items : List EntryItem) :
    LoaderState × List LoadEvent × Bool :=
  parseEntriesAux env s 0 items

/-- Where a streaming run can fail: opening the file, a token/decode error
before the entries array is reached, a per-entry decode error (inside
`items`), or a token/decode error after the entries array. -/
inductive LoadScript
  | openFail
  | preLogFail
  | run (items : List EntryItem) (trailingFail : Bool)

/-- `StreamingLoader.LoadHARFileStreaming` with `parseLog` and the
top-level token loop folded in: every error path fires `onError` exactly
once and returns; `onComplete` fires only when no error occurred. -/
def LoadHARFileStreaming (env : GoEnv) (s : LoaderState) :
    LoadScript → LoaderState × List LoadEvent
  | .openFail => (s, [.errored])
  | .preLogFail => (s, [.errored])
  | .run items trailingFail =>
    let r := parseEntries env s items
    if r.2.2 then (r.1, r.2.1 ++ [.errored])
    else if trailingFail then (r.1, r.2.1 ++ [.errored])
    else (r.1, r.2.1 ++ [.completed])

def countEntryAdded (evs : List LoadEvent) : Nat :=
  evs.countP (fun ev => match ev with | .entryAdded _ _ => true | _ => false)

def countErrored (evs : List LoadEvent) : Nat :=
  evs.countP (fun ev => match ev with | .errored => true | _ => false)

def countCompleted (evs : List LoadEvent) : Nat :=
  evs.countP (fun ev => match ev with | .completed => true | _ => false)

/-- The entries decoded before the first failure. -/
def okPrefix : List EntryItem → List HAREntry
  | [] => []
  | .bad :: _ => []
  | .ok e :: rest => e :: okPrefix rest

/-- Whether a script contains any failure. -/
def scriptFails : LoadScript → Bool
  | .openFail => true
  | .preLogFail => true
  | .run items trailingFail =>
    items.any (fun it => match it with | .bad => true | _ => false) || trailingFail

/-! ## `SaveFilteredHAR` (`internal/har/utils.go`)

Only the construction of the output document is modelled; JSON
marshalling and the file write are I/O effects outside the embedding. -/

def SaveFilteredHAR (originalHAR : HARFile) (filteredIndices : List Int) : HARFile :=
  { Log := { Version := originalHAR.Log.Version
             Entries := filteredIndices.foldl (fun acc idx =>
               if 0 ≤ idx ∧ idx < (originalHAR.Log.Entries.length : Int) then
                 acc ++ [originalHAR.Log.Entries.getD idx.toNat default]
               else acc) [] } }

/-! ## `WaterfallView.renderRequestBar` (`internal/ui/waterfall.go`):
bar offset computation

`maxDuration` is the window length in ms computed by `Update` (earliest
start to latest start+duration over retained entries), `relativeStart` is
`start − earliest` in ms for the bar's entry, `rowIndex` is the bar's
position in render order, `chartWidth` the chart width in columns.
Exact rationals stand in for `float64`; `goTrunc` is Go's `int(...)`
conversion. -/
def renderStartPos (maxDuration : ℚ) (chartWidth : Nat) (rowIndex : Nat)
    (relativeStart : ℚ) : Int :=
  if maxDuration ≤ 100 then 0
  else if maxDuration > 10000 then
    Int.ofNat (if rowIndex * 2 > chartWidth / 3
      then (rowIndex % (chartWidth / 6)) * 2
      else rowIndex * 2)
  else goTrunc ((chartWidth : ℚ) * relativeStart / maxDuration)

/-! ## Invariant of the built association maps

`GoodMap m keyOf dom` says the association list `m` is exactly the
grouping of the positions `dom` by the key function: every bucket holds,
in order, the positions of `dom` carrying its key, and every position of
`dom` has a bucket. -/

def GoodMap {κ : Type} [BEq κ] (m : List (κ × List Int)) (keyOf : Int → κ)
    (dom : List Int) : Prop :=
  (∀ pr ∈ m, pr.2 = dom.filter (fun i => keyOf i == pr.1)) ∧
  (∀ i ∈ dom, ∃ pr ∈ m, pr.1 = keyOf i)

/-! ## The built index groups positions exactly by their keys -/

/-! ## Behaviour of one streaming run -/

/-- The entries array of a script (`[]` for runs failing before it). -/
def scriptItems : LoadScript → List EntryItem
  | .openFail => []
  | .preLogFail => []
  | .run items _ => items

/-! ## Claim-side specifications, stated from the spec's words -/

/-- First-match evaluation of an ordered rule list. -/
def firstSome (rules : List (Option String)) (fallback : String) : String :=
  (rules.findSome? id).getD fallback

/-- Modelled from the spec: the eight-rule cascade of claim C3 exactly as
worded — in particular rule 3 (the resource-type hint) does not consult
the URL, so an entry with an unparseable URL but a present hint would be
classified by rule 3. Rules that need URL components simply do not match
when the URL does not parse. -/
def specCascadeC3 (env : GoEnv) (entry : HAREntry) : String :=
  firstSome
    [ if IsCORSError env entry then some "cors" else none,
      (match env.parseURL entry.Request.URL with
       | some u => if u.scheme == "ws" || u.scheme == "wss" then some "ws" else none
       | none => none),
      resourceTypeLabel entry.ResourceType,
      contentTypeLabel entry.Response.Headers,
      (match env.parseURL entry.Request.URL with
       | some u => extensionLabel (goToLower u.path)
       | none => none),
      if xhrHeaderEvidence entry.Request.Headers then some "fetch" else none,
      (match env.parseURL entry.Request.URL with
       | some u =>
         if (goToLower u.path) == "/" || (goToLower u.path) == "" then some "doc"
         else if goContains (goToLower u.path) "/api/" || goContains (goToLower u.path) "/rest/"
             || goContains (goToLower u.path) "/graphql" then some "fetch"
         else none
       | none => none) ]
    "other"

/-- The cascade as the code implements it: after the CORS rule the URL is
parsed, and a parse failure short-circuits every remaining rule to
`"other"`; for parseable URLs rules 2–8 are the ordered first-match rule
list of the spec. -/
def amendedCascadeC3 (env : GoEnv) (entry : HAREntry) : String :=
  if IsCORSError env entry then "cors"
  else
    match env.parseURL entry.Request.URL with
    | none => "other"
    | some u =>
      firstSome
        [ if u.scheme == "ws" || u.scheme == "wss" then some "ws" else none,
          resourceTypeLabel entry.ResourceType,
          contentTypeLabel entry.Response.Headers,
          extensionLabel (goToLower u.path),
          if xhrHeaderEvidence entry.Request.Headers then some "fetch" else none,
          if (goToLower u.path) == "/" || (goToLower u.path) == "" then some "doc" else none,
          if goContains (goToLower u.path) "/api/" || goContains (goToLower u.path) "/rest/"
              || goContains (goToLower u.path) "/graphql" then some "fetch" else none ]
        "other"

/-- Modelled from the spec: claim C7's CORS cascade exactly as worded;
rule 4's cross-origin test is literally "a referer header whose host
differs from the request URL host". -/
def corsClaimC7 (env : GoEnv) (entry : HAREntry) : Bool :=
  if entry.Response.Status ≠ 0 then false
  else
    let method := (goToUpper entry.Request.Method)
    if method == "OPTIONS" then
      entry.Request.Headers.any (fun h => (goToLower h.Name) == "access-control-request-method")
    else if entry.Request.Headers.any (fun h => (goToLower h.Name) == "origin") then true
    else if entry.Request.Headers.any (fun h =>
        (goToLower h.Name) == "sec-fetch-mode" && (goToLower h.Value) == "cors") then true
    else if method == "GET" then
      (match env.parseURL entry.Request.URL with
       | none => false
       | some u =>
         entry.Request.Headers.any (fun h => (goToLower h.Name) == "referer" &&
           (match env.parseURL h.Value with
            | some refURL => u.host != refURL.host
            | none => false)))
      && entry.Request.Headers.any (fun h =>
           (goToLower h.Name) == "content-type" && goContains (goToLower h.Value) "application/json")
    else false

/-- Claim C7's cascade amended to the code: rule 4 fires only when the
request URL host and the referer host are both non-empty (and differ). -/
def corsAmendedC7 (env : GoEnv) (entry : HAREntry) : Bool :=
  if entry.Response.Status ≠ 0 then false
  else
    let method := (goToUpper entry.Request.Method)
    if method == "OPTIONS" then
      entry.Request.Headers.any (fun h => (goToLower h.Name) == "access-control-request-method")
    else if entry.Request.Headers.any (fun h => (goToLower h.Name) == "origin") then true
    else if entry.Request.Headers.any (fun h =>
        (goToLower h.Name) == "sec-fetch-mode" && (goToLower h.Value) == "cors") then true
    else if method == "GET" then
      (match env.parseURL entry.Request.URL with
       | none => false
       | some u =>
         entry.Request.Headers.any (fun h => (goToLower h.Name) == "referer" &&
           (match env.parseURL h.Value with
            | some refURL => u.host != "" && refURL.host != "" && u.host != refURL.host
            | none => false)))
      && entry.Request.Headers.any (fun h =>
           (goToLower h.Name) == "content-type" && goContains (goToLower h.Value) "application/json")
    else false

/-- Modelled from the spec: the offset formula claimed in C8 — `round` in
the middle regime, and for long windows `(i mod (W/6)) × 2` clamped to
`≤ W/3` for every bar. -/
def specOffsetC8 (maxDuration : ℚ) (chartWidth rowIndex : Nat) (relativeStart : ℚ) : Int :=
  if maxDuration ≤ 100 then 0
  else if maxDuration > 10000 then
    min (Int.ofNat ((rowIndex % (chartWidth / 6)) * 2)) (Int.ofNat (chartWidth / 3))
  else round ((chartWidth : ℚ) * relativeStart / maxDuration)

/-! ## Auxiliary lemmas for the claim theorems -/

/-! ## Concrete data for witnesses and counterexamples

`envTable` agrees with `net/url.Parse` on the strings these concrete
computations touch: `url.Parse("")` succeeds with all components empty,
and `url.Parse("https://a.com/")` yields scheme/host/path. `envNone`
models the library on `"%zz"`, where `url.Parse` fails with an
invalid-URL-escape error. -/

def envTable : GoEnv :=
  ⟨fun s =>
      if s == "" then some ⟨"", "", "", ""⟩
      else if s == "https://a.com/" then some ⟨"https", "a.com", "/", ""⟩
      else none,
   fun _ => none⟩

def envNone : GoEnv := ⟨fun _ => none, fun _ => none⟩

/-- An entry that only carries a response status. -/
def statusEntry (s : Int) : HAREntry :=
  { StartedDateTime := "", Time := 0, Request := default,
    Response := { (default : HARResponse) with Status := s },
    Timings := default, ResourceType := "" }

def witEntries : List HAREntry := [statusEntry 200, statusEntry 500, statusEntry 0]

def witState : FilterState := ⟨"", true, false, "all"⟩

def errEntries : List HAREntry := [statusEntry 404, statusEntry 500]

def bucketsA : List (Int × List Int) := [(404, [0]), (500, [1])]

def bucketsB : List (Int × List Int) := [(500, [1]), (404, [0])]

/-- Unparseable URL (`url.Parse("%zz")` errors) with a resource-type hint. -/
def c3Entry : HAREntry :=
  { StartedDateTime := "", Time := 0,
    Request := { (default : HARRequest) with URL := "%zz" },
    Response := { (default : HARResponse) with Status := 200 },
    Timings := default, ResourceType := "image" }

/-- Status-0 GET with an empty (but parseable) request URL, a cross-host
referer and a JSON content type. -/
def c7Request : HARRequest :=
  { Method := "GET", URL := "", HTTPVersion := "",
    Headers := [⟨"Referer", "https://a.com/"⟩, ⟨"Content-Type", "application/json"⟩],
    Cookies := [], PostData := none }

def c7Entry : HAREntry :=
  { StartedDateTime := "", Time := 0, Request := c7Request,
    Response := { (default : HARResponse) with Status := 0 },
    Timings := default, ResourceType := "" }

def c5Script : LoadScript :=
  .run [.ok (statusEntry 200), .ok (statusEntry 200), .ok (statusEntry 200)] false

def c9Script : LoadScript := .run [.ok (statusEntry 200), .bad] false

/-! ## Theorems: helper lemmas, then the claim theorems -/

theorem mem_foldl_insert (a : List Int) (x : Int) (s : Finset Int) :
    x ∈ a.foldl (fun s v => insert v s) s ↔ x ∈ a ∨ x ∈ s := by
  induction a generalizing s with
  | nil => simp
  | cons h t ih =>
    simp only [List.foldl_cons, ih, Finset.mem_insert, List.mem_cons]
    tauto

theorem foldl_concat_filter {p : Int → Prop} [DecidablePred p] (b acc : List Int) :
    b.foldl (fun r v => if p v then r.concat v else r) acc
      = acc ++ b.filter (fun v => decide (p v)) := by
  induction b generalizing acc with
  | nil => simp
  | cons h t ih =>
    rw [List.foldl_cons, List.filter_cons]
    by_cases hp : p h
    · rw [if_pos hp, ih, List.concat_eq_append, List.append_assoc]
      simp [hp]
    · rw [if_neg hp, ih]
      simp [hp]

/-- Characterization of `IntersectIndices`: the intersection keeps exactly
the elements of the probe `b` that occur in `a`, in `b`'s order and with
`b`'s duplicates. -/
theorem intersectIndices_eq_filter (a b : List Int) :
    IntersectIndices a b = b.filter (fun v => decide (v ∈ a)) := by
  rcases a with _ | ⟨x, t⟩
  · simp [IntersectIndices]
  · rcases b with _ | ⟨y, u⟩
    · simp [IntersectIndices]
    · simp only [IntersectIndices, List.isEmpty_cons, Bool.or_self, Bool.false_eq_true,
        if_false, foldl_concat_filter, List.nil_append]
      apply List.filter_congr
      intro v _
      exact decide_eq_decide.mpr (by rw [mem_foldl_insert]; simp)

theorem mem_intersectIndices (a b : List Int) (x : Int) :
    x ∈ IntersectIndices a b ↔ x ∈ a ∧ x ∈ b := by
  rw [intersectIndices_eq_filter]
  simp [List.mem_filter, and_comm]

theorem lookup_mem {κ : Type} [BEq κ] [LawfulBEq κ] (m : List (κ × List Int)) (k : κ)
    (v : List Int) (h : m.lookup k = some v) : (k, v) ∈ m := by
  induction m with
  | nil => simp [List.lookup] at h
  | cons pr t ih =>
    rcases pr with ⟨k1, v1⟩
    by_cases hk : k == k1
    · simp only [List.lookup, hk, Option.some.injEq] at h
      have hkk : k = k1 := eq_of_beq hk
      subst hkk
      subst h
      exact List.mem_cons_self _ _
    · simp only [List.lookup, Bool.not_eq_true] at h
      rw [Bool.not_eq_true] at hk
      rw [hk] at h
      exact List.mem_cons_of_mem _ (ih h)

theorem lookup_none {κ : Type} [BEq κ] [LawfulBEq κ] (m : List (κ × List Int)) (k : κ)
    (h : m.lookup k = none) : ∀ pr ∈ m, pr.1 ≠ k := by
  induction m with
  | nil => simp
  | cons pr t ih =>
    rcases pr with ⟨k1, v1⟩
    by_cases hk : k == k1
    · simp only [List.lookup, hk] at h
      exact Option.noConfusion h
    · rw [Bool.not_eq_true] at hk
      simp only [List.lookup, hk] at h
      intro q hq
      rcases List.mem_cons.mp hq with rfl | hq
      · simp only []
        intro hkk
        subst hkk
        simp at hk
      · exact ih h q hq

theorem goodMap_congr {κ : Type} [BEq κ] {m : List (κ × List Int)} {keyOf keyOf2 : Int → κ}
    {dom : List Int} (hg : GoodMap m keyOf dom) (h : ∀ i ∈ dom, keyOf2 i = keyOf i) :
    GoodMap m keyOf2 dom := by
  constructor
  · intro pr hpr
    rw [hg.1 pr hpr]
    exact (List.filter_congr (fun i hi => by rw [h i hi])).symm
  · intro i hi
    obtain ⟨pr, hpr, hkey⟩ := hg.2 i hi
    exact ⟨pr, hpr, by rw [h i hi, hkey]⟩

theorem mapAppend_good {κ : Type} [BEq κ] [LawfulBEq κ] {m : List (κ × List Int)}
    {keyOf : Int → κ} {dom : List Int} (hg : GoodMap m keyOf dom) (k : κ) (x : Int)
    (hk : keyOf x = k) : GoodMap (mapAppend m k x) keyOf (dom ++ [x]) := by
  obtain ⟨hbuckets, hkeys⟩ := hg
  unfold mapAppend
  cases hl : m.lookup k with
  | some v =>
    constructor
    · intro pr hpr
      rcases List.mem_map.mp hpr with ⟨pr0, hpr0, heq⟩
      by_cases hprk : pr0.1 == k
      · rw [if_pos hprk] at heq
        subst heq
        have hk1 : pr0.1 = k := eq_of_beq hprk
        rw [List.filter_append, ← hbuckets pr0 hpr0]
        simp [hk, hk1]
      · rw [if_neg hprk] at heq
        subst heq
        rw [List.filter_append, ← hbuckets pr0 hpr0]
        have : ¬ (keyOf x == pr0.1) := by
          rw [hk]
          intro hcon
          exact hprk (by simp [eq_of_beq hcon])
        simp [this]
    · intro i hi
      rcases List.mem_append.mp hi with hi | hi
      · obtain ⟨pr, hpr, hkey⟩ := hkeys i hi
        refine ⟨if pr.1 == k then (pr.1, pr.2 ++ [x]) else pr, List.mem_map_of_mem _ hpr, ?_⟩
        split <;> simpa using hkey
      · have hx : i = x := by simpa using hi
        have hmem := lookup_mem m k v hl
        have hmap : ((k, v).1, (k, v).2 ++ [x])
            ∈ m.map (fun pr => if pr.1 == k then (pr.1, pr.2 ++ [x]) else pr) := by
          have heq : (if (k, v).1 == k then ((k, v).1, (k, v).2 ++ [x]) else (k, v))
              = ((k, v).1, (k, v).2 ++ [x]) := by simp
          rw [← heq]
          exact List.mem_map_of_mem _ hmem
        refine ⟨((k, v).1, (k, v).2 ++ [x]), hmap, ?_⟩
        show k = keyOf i
        rw [hx]
        exact hk.symm
  | none =>
    constructor
    · intro pr hpr
      rcases List.mem_append.mp hpr with hpr | hpr
      · rw [List.filter_append, ← hbuckets pr hpr]
        have hne := lookup_none m k hl pr hpr
        have : ¬ (keyOf x == pr.1) := by
          rw [hk]
          intro hcon
          exact hne (eq_of_beq hcon).symm
        simp [this]
      · have hpr2 : pr = (k, [x]) := by simpa using hpr
        subst hpr2
        have hdom : dom.filter (fun i => keyOf i == k) = [] := by
          rw [List.filter_eq_nil_iff]
          intro i hi hbeq
          obtain ⟨pr2, hpr2, hkey2⟩ := hkeys i hi
          exact lookup_none m k hl pr2 hpr2 (hkey2.trans (eq_of_beq hbeq))
        rw [List.filter_append, hdom]
        simp [hk]
    · intro i hi
      rcases List.mem_append.mp hi with hi | hi
      · obtain ⟨pr, hpr, hkey⟩ := hkeys i hi
        exact ⟨pr, List.mem_append_left _ hpr, hkey⟩
      · have hx : i = x := by simpa using hi
        refine ⟨(k, [x]), List.mem_append_right _ (by simp), ?_⟩
        show k = keyOf i
        rw [hx]
        exact hk.symm

theorem lookupList_eq_filter {κ : Type} [BEq κ] [LawfulBEq κ] {m : List (κ × List Int)}
    {keyOf : Int → κ} {dom : List Int} (hg : GoodMap m keyOf dom) (t : κ) :
    (m.lookup t).getD [] = dom.filter (fun i => keyOf i == t) := by
  cases hl : m.lookup t with
  | some v =>
    have hmem := lookup_mem m t v hl
    have := hg.1 _ hmem
    simpa using this
  | none =>
    have hn := lookup_none m t hl
    simp only [Option.getD_none]
    symm
    rw [List.filter_eq_nil_iff]
    intro i hi hbeq
    obtain ⟨pr, hpr, hkey⟩ := hg.2 i hi
    exact hn pr hpr (hkey.trans (eq_of_beq hbeq))

theorem goodMap_bucket_mem {κ : Type} [BEq κ] [LawfulBEq κ] {m : List (κ × List Int)}
    {keyOf : Int → κ} {dom : List Int} (hg : GoodMap m keyOf dom) (P : κ → Prop)
    (x : Int) : (∃ pr ∈ m, P pr.1 ∧ x ∈ pr.2) ↔ x ∈ dom ∧ P (keyOf x) := by
  constructor
  · rintro ⟨pr, hpr, hP, hx⟩
    rw [hg.1 pr hpr] at hx
    rcases List.mem_filter.mp hx with ⟨hdom, hbeq⟩
    have hxk : keyOf x = pr.1 := eq_of_beq (by simpa using hbeq)
    exact ⟨hdom, hxk ▸ hP⟩
  · rintro ⟨hdom, hP⟩
    obtain ⟨pr, hpr, hkey⟩ := hg.2 x hdom
    refine ⟨pr, hpr, hkey ▸ hP, ?_⟩
    rw [hg.1 pr hpr]
    exact List.mem_filter.mpr ⟨hdom, by simp [hkey]⟩

theorem mem_posRange (n : Nat) (i : Int) : i ∈ posRange n ↔ 0 ≤ i ∧ i < (n : Int) := by
  unfold posRange
  constructor
  · intro h
    rcases List.mem_map.mp h with ⟨j, hj, rfl⟩
    rw [List.mem_range] at hj
    omega
  · rintro ⟨h0, hn⟩
    refine List.mem_map.mpr ⟨i.toNat, ?_, by omega⟩
    rw [List.mem_range]
    omega

theorem posRange_succ (n : Nat) : posRange (n + 1) = posRange n ++ [(n : Int)] := by
  simp [posRange, List.range_succ]

theorem getD_snoc_lt (l : List HAREntry) (e d : HAREntry) (j : Nat) (h : j < l.length) :
    (l ++ [e]).getD j d = l.getD j d := by
  induction l generalizing j with
  | nil => exact absurd h (Nat.not_lt_zero j)
  | cons hd t ih =>
    cases j with
    | zero => rfl
    | succ j2 => exact ih j2 (by simpa using h)

theorem getD_snoc_length (l : List HAREntry) (e d : HAREntry) :
    (l ++ [e]).getD l.length d = e := by
  induction l with
  | nil => rfl
  | cons hd t ih =>
    simp only [List.cons_append, List.length_cons, List.getD_cons_succ]
    exact ih

theorem entryAt_snoc (es : List HAREntry) (e : HAREntry) (i : Int)
    (h : i ∈ posRange es.length) : entryAt (es ++ [e]) i = entryAt es i := by
  rw [mem_posRange] at h
  exact getD_snoc_lt es e default i.toNat (by omega)

theorem entryAt_snoc_length (es : List HAREntry) (e : HAREntry) :
    entryAt (es ++ [e]) ((es.length : Nat) : Int) = e := by
  unfold entryAt
  rw [Int.toNat_ofNat]
  exact getD_snoc_length es e default

theorem buildIndexAux_snoc (env : GoEnv) (es : List HAREntry) (e : HAREntry) :
    ∀ (idx : EntryIndex) (pos : Int),
      buildIndexAux env idx pos (es ++ [e])
        = AddEntry env (buildIndexAux env idx pos es) e (pos + es.length) := by
  induction es with
  | nil => intro idx pos; simp [buildIndexAux]
  | cons hd t ih =>
    intro idx pos
    rw [List.cons_append]
    simp only [buildIndexAux]
    rw [ih]
    congr 1
    simp only [List.length_cons]
    push_cast
    ring

theorem AddEntry_byStatus (env : GoEnv) (idx : EntryIndex) (e : HAREntry) (n : Int) :
    (AddEntry env idx e n).byStatus = mapAppend idx.byStatus e.Response.Status n := by
  unfold AddEntry
  cases env.parseURL e.Request.URL <;> rfl

theorem AddEntry_byType (env : GoEnv) (idx : EntryIndex) (e : HAREntry) (n : Int) :
    (AddEntry env idx e n).byType = mapAppend idx.byType (GetRequestType env e) n := by
  unfold AddEntry
  cases env.parseURL e.Request.URL <;> rfl

theorem buildIndex_good (env : GoEnv) (entries : List HAREntry) :
    GoodMap (buildIndex env entries).byStatus
        (fun i => (entryAt entries i).Response.Status) (posRange entries.length)
    ∧ GoodMap (buildIndex env entries).byType
        (fun i => GetRequestType env (entryAt entries i)) (posRange entries.length) := by
  induction entries using List.reverseRecOn with
  | nil =>
    constructor <;> exact ⟨by simp [buildIndex, buildIndexAux, NewEntryIndex, posRange],
      by simp [posRange]⟩
  | append_singleton es e ih =>
    have hsn : buildIndex env (es ++ [e])
        = AddEntry env (buildIndex env es) e ((es.length : Nat) : Int) := by
      unfold buildIndex
      rw [buildIndexAux_snoc]
      norm_num
    have hlen : (es ++ [e]).length = es.length + 1 := by simp
    rw [hsn, hlen, posRange_succ]
    constructor
    · rw [AddEntry_byStatus]
      refine mapAppend_good ?_ e.Response.Status ((es.length : Nat) : Int) ?_
      · exact goodMap_congr ih.1 (fun i hi => by rw [entryAt_snoc es e i hi])
      · rw [entryAt_snoc_length]
    · rw [AddEntry_byType]
      refine mapAppend_good ?_ (GetRequestType env e) ((es.length : Nat) : Int) ?_
      · exact goodMap_congr ih.2 (fun i hi => by rw [entryAt_snoc es e i hi])
      · rw [entryAt_snoc_length]

theorem getByType_eq (env : GoEnv) (entries : List HAREntry) (t : String) :
    GetByType (buildIndex env entries) t
      = (posRange entries.length).filter
          (fun i => GetRequestType env (entryAt entries i) == t) := by
  unfold GetByType
  exact lookupList_eq_filter (buildIndex_good env entries).2 t

theorem mem_getErrorIndices (statusBuckets : List (Int × List Int)) (x : Int) :
    x ∈ GetErrorIndices statusBuckets
      ↔ ∃ pr ∈ statusBuckets, (400 ≤ pr.1 ∨ pr.1 = 0) ∧ x ∈ pr.2 := by
  suffices h : ∀ acc : List Int,
      x ∈ statusBuckets.foldl
          (fun result pr => if 400 ≤ pr.1 ∨ pr.1 = 0 then result ++ pr.2 else result) acc
        ↔ x ∈ acc ∨ ∃ pr ∈ statusBuckets, (400 ≤ pr.1 ∨ pr.1 = 0) ∧ x ∈ pr.2 by
    have h2 := h []
    simpa [GetErrorIndices] using h2
  intro acc
  induction statusBuckets generalizing acc with
  | nil => simp
  | cons pr t ih =>
    by_cases hp : 400 ≤ pr.1 ∨ pr.1 = 0
    · simp only [List.foldl_cons, if_pos hp, ih, List.mem_append, List.mem_cons]
      constructor
      · rintro ((h1 | h1) | h1)
        · exact Or.inl h1
        · exact Or.inr ⟨pr, Or.inl rfl, hp, h1⟩
        · rcases h1 with ⟨q, hq, h3⟩
          exact Or.inr ⟨q, Or.inr hq, h3⟩
      · rintro (h1 | ⟨q, (rfl | hq), h3, h4⟩)
        · exact Or.inl (Or.inl h1)
        · exact Or.inl (Or.inr h4)
        · exact Or.inr ⟨q, hq, h3, h4⟩
    · simp only [List.foldl_cons, if_neg hp, ih, List.mem_cons]
      constructor
      · rintro (h1 | ⟨q, hq, h3⟩)
        · exact Or.inl h1
        · exact Or.inr ⟨q, Or.inr hq, h3⟩
      · rintro (h1 | ⟨q, (rfl | hq), h3, h4⟩)
        · exact Or.inl h1
        · exact absurd h3 hp
        · exact Or.inr ⟨q, hq, h3, h4⟩

/-- Membership in the error-set query, for any bucket enumeration that is
a permutation of the built status index: exactly the positions whose
status is `≥ 400` or `0`. -/
theorem mem_getErrorIndices_perm (env : GoEnv) (entries : List HAREntry)
    {statusBuckets : List (Int × List Int)}
    (hperm : statusBuckets.Perm (buildIndex env entries).byStatus) (x : Int) :
    x ∈ GetErrorIndices statusBuckets
      ↔ x ∈ posRange entries.length
        ∧ (400 ≤ (entryAt entries x).Response.Status
            ∨ (entryAt entries x).Response.Status = 0) := by
  rw [mem_getErrorIndices]
  have hiff : (∃ pr ∈ statusBuckets, (400 ≤ pr.1 ∨ pr.1 = 0) ∧ x ∈ pr.2)
      ↔ ∃ pr ∈ (buildIndex env entries).byStatus, (400 ≤ pr.1 ∨ pr.1 = 0) ∧ x ∈ pr.2 := by
    constructor <;> rintro ⟨pr, hpr, h2⟩
    · exact ⟨pr, hperm.mem_iff.mp hpr, h2⟩
    · exact ⟨pr, hperm.mem_iff.mpr hpr, h2⟩
  rw [hiff]
  exact goodMap_bucket_mem (buildIndex_good env entries).1 (fun s => 400 ≤ s ∨ s = 0) x

theorem mem_FilterByText (env : GoEnv) (entries : List HAREntry) (text : String) (x : Int) :
    x ∈ FilterByText env entries text
      ↔ x ∈ posRange entries.length
        ∧ (text = "" ∨ matchesTextSearch env (entryAt entries x) (goToLower text)) := by
  unfold FilterByText
  by_cases ht : text = ""
  · simp [ht]
  · simp [ht, List.mem_filter, beq_iff_eq]

theorem mem_FilterEntries (env : GoEnv) (f : FilterState) (entries : List HAREntry) (x : Int) :
    x ∈ FilterEntries env f entries
      ↔ x ∈ posRange entries.length ∧ keepEntry env f (entryAt entries x) := by
  unfold FilterEntries
  by_cases hs : f.SortBySlowest
  · simp [hs, sortBySlowestGo, List.mem_insertionSort, List.mem_filter]
  · simp [hs, List.mem_filter]

/-- Membership in the index-backed evaluation over the built index, for
any status-bucket enumeration that is a permutation of the status index:
the conjunction of the three filter conditions. -/
theorem mem_FilterEntriesWithIndex (env : GoEnv) (f : FilterState) (entries : List HAREntry)
    {statusBuckets : List (Int × List Int)}
    (hperm : statusBuckets.Perm (buildIndex env entries).byStatus) (x : Int) :
    x ∈ FilterEntriesWithIndex env f entries (buildIndex env entries) statusBuckets
      ↔ x ∈ posRange entries.length
        ∧ (f.ActiveTypeFilter = "all"
            ∨ GetRequestType env (entryAt entries x) = f.ActiveTypeFilter)
        ∧ (f.ShowErrorsOnly = false
            ∨ 400 ≤ (entryAt entries x).Response.Status
            ∨ (entryAt entries x).Response.Status = 0)
        ∧ (f.FilterText = ""
            ∨ matchesTextSearch env (entryAt entries x) (goToLower f.FilterText)) := by
  unfold FilterEntriesWithIndex
  have hsortless : ∀ l : List Int,
      (x ∈ (if f.SortBySlowest then sortBySlowestGo entries l else l)) ↔ x ∈ l := by
    intro l
    by_cases hs : f.SortBySlowest <;>
      simp [hs, sortBySlowestGo, List.mem_insertionSort]
  simp only [hsortless]
  split_ifs <;>
    simp_all [mem_intersectIndices, mem_getErrorIndices_perm env entries hperm,
      mem_FilterByText, getByType_eq, List.mem_filter, bne_iff_ne] <;>
    tauto

theorem parseEntriesAux_spec (env : GoEnv) (items : List EntryItem) :
    ∀ (s : LoaderState) (c : Nat),
      (parseEntriesAux env s c items).1.entries = s.entries ++ okPrefix items
      ∧ (parseEntriesAux env s c items).1.index
          = buildIndexAux env s.index (s.entries.length : Int) (okPrefix items)
      ∧ (parseEntriesAux env s c items).2.2
          = items.any (fun it => match it with | .bad => true | _ => false)
      ∧ countEntryAdded (parseEntriesAux env s c items).2.1 = (okPrefix items).length
      ∧ countErrored (parseEntriesAux env s c items).2.1 = 0
      ∧ countCompleted (parseEntriesAux env s c items).2.1 = 0 := by
  induction items with
  | nil =>
    intro s c
    simp [parseEntriesAux, okPrefix, buildIndexAux, countEntryAdded, countErrored,
      countCompleted]
  | cons it rest ih =>
    intro s c
    cases it with
    | bad =>
      simp [parseEntriesAux, okPrefix, buildIndexAux, countEntryAdded, countErrored,
        countCompleted, List.any_cons]
    | ok e =>
      obtain ⟨ih1, ih2, ih3, ih4, ih5, ih6⟩ :=
        ih ⟨s.entries ++ [e], AddEntry env s.index e (s.entries.length : Int)⟩ (c + 1)
      have hhead : ∀ l : List LoadEvent,
          countEntryAdded ((if (c + 1) % 50 == 0
              then [LoadEvent.entryAdded e (s.entries.length : Int),
                LoadEvent.progress (c + 1)]
              else [LoadEvent.entryAdded e (s.entries.length : Int)]) ++ l)
            = 1 + countEntryAdded l
          ∧ countErrored ((if (c + 1) % 50 == 0
              then [LoadEvent.entryAdded e (s.entries.length : Int),
                LoadEvent.progress (c + 1)]
              else [LoadEvent.entryAdded e (s.entries.length : Int)]) ++ l)
            = countErrored l
          ∧ countCompleted ((if (c + 1) % 50 == 0
              then [LoadEvent.entryAdded e (s.entries.length : Int),
                LoadEvent.progress (c + 1)]
              else [LoadEvent.entryAdded e (s.entries.length : Int)]) ++ l)
            = countCompleted l := by
        intro l
        by_cases hc : (c + 1) % 50 == 0 <;>
          simp [hc, countEntryAdded, countErrored, countCompleted, List.countP_cons,
            Nat.add_comm]
      refine ⟨?_, ?_, ?_, ?_, ?_, ?_⟩
      · simp only [parseEntriesAux]
        rw [ih1]
        simp [okPrefix]
      · simp only [parseEntriesAux]
        rw [ih2]
        simp only [okPrefix, buildIndexAux, List.length_append, List.length_singleton]
        push_cast
        ring_nf
      · simp only [parseEntriesAux]
        rw [ih3]
        simp [List.any_cons]
      · simp only [parseEntriesAux]
        rw [(hhead _).1, ih4]
        simp only [okPrefix, List.length_cons]
        omega
      · simp only [parseEntriesAux]
        rw [(hhead _).2.1, ih5]
      · simp only [parseEntriesAux]
        rw [(hhead _).2.2, ih6]

theorem list_any_or {α : Type} (l : List α) (p q : α → Bool) :
    l.any (fun y => p y || q y) = (l.any p || l.any q) := by
  induction l with
  | nil => rfl
  | cons h t ih =>
    simp [List.any_cons, ih, Bool.or_assoc, Bool.or_comm, Bool.or_left_comm]

theorem keepEntry_iff (env : GoEnv) (f : FilterState) (e : HAREntry) :
    keepEntry env f e = true
      ↔ (f.ShowErrorsOnly = false ∨ 400 ≤ e.Response.Status ∨ e.Response.Status = 0)
        ∧ (f.FilterText = "" ∨ matchesTextSearch env e (goToLower f.FilterText) = true)
        ∧ (f.ActiveTypeFilter = "all" ∨ GetRequestType env e = f.ActiveTypeFilter) := by
  cases hso : f.ShowErrorsOnly
  · simp [keepEntry, hso, beq_iff_eq]
  · by_cases h4 : (400 : Int) ≤ e.Response.Status
    · have hlt : ¬(e.Response.Status < 400) := by omega
      simp [keepEntry, hso, hlt, h4, beq_iff_eq]
    · by_cases hz : e.Response.Status = 0
      · simp [keepEntry, hso, h4, hz, beq_iff_eq]
      · have hlt : e.Response.Status < 400 := by omega
        simp [keepEntry, hso, hlt, h4, hz, beq_iff_eq]

theorem foldl_if_append {β : Type} (p : Int → Prop) [DecidablePred p] (g : Int → β)
    (l : List Int) (acc : List β) :
    l.foldl (fun acc i => if p i then acc ++ [g i] else acc) acc
      = acc ++ (l.filter (fun i => decide (p i))).map g := by
  induction l generalizing acc with
  | nil => simp
  | cons h t ih =>
    rw [List.foldl_cons, List.filter_cons]
    by_cases hp : p h
    · rw [if_pos hp, ih]
      simp [hp]
    · rw [if_neg hp, ih]
      simp [hp]

/-- C7 (amended): `IsCORSError` returns true only on status-0 entries and
evaluates the ordered short-circuit cascade of the claim, with rule 4
amended to fire only when the request URL host and the referer host are
both non-empty and differ; the preflight rule and the `Origin` /
`Sec-Fetch-Mode` rules are as claimed. -/
theorem C7_cors_cascade_amended (env : GoEnv) (entry : HAREntry) :
    IsCORSError env entry = corsAmendedC7 env entry := by
  simp only [IsCORSError, corsAmendedC7]
  by_cases h0 : entry.Response.Status ≠ 0
  · rw [if_pos h0, if_pos h0]
  · rw [if_neg h0, if_neg h0]
    by_cases hopt : ((goToUpper entry.Request.Method) == "OPTIONS") = true
    · rw [if_pos hopt, if_pos hopt]
    · rw [if_neg hopt, if_neg hopt]
      rw [list_any_or entry.Request.Headers (fun h => (goToLower h.Name) == "origin")
        (fun h => (goToLower h.Name) == "sec-fetch-mode" && (goToLower h.Value) == "cors")]
      cases ho : entry.Request.Headers.any (fun h => (goToLower h.Name) == "origin")
      · cases hs : entry.Request.Headers.any
            (fun h => (goToLower h.Name) == "sec-fetch-mode" && (goToLower h.Value) == "cors")
        · simp only [ho, hs, Bool.or_self, Bool.false_eq_true, if_false]
          by_cases hg : ((goToUpper entry.Request.Method) == "GET") = true
          · rw [if_pos hg, if_pos hg]
            cases env.parseURL entry.Request.URL
            · simp
            · rfl
          · rw [if_neg hg, if_neg hg]
        · simp [ho, hs]
      · simp [ho]

/-- C3 (amended): `GetRequestType` is the first-match evaluation of the
claimed ordered rule list, except that the URL is parsed right after the
CORS rule and a parse failure short-circuits every remaining rule
(including the resource-type rule) to `"other"`. -/
theorem C3_classifier_cascade_amended (env : GoEnv) (entry : HAREntry) :
    GetRequestType env entry = amendedCascadeC3 env entry := by
  simp only [GetRequestType, amendedCascadeC3, firstSome]
  cases hC : IsCORSError env entry
  · simp only [Bool.false_eq_true, if_false]
    cases hU : env.parseURL entry.Request.URL
    · rfl
    · rename_i u
      cases hws : (u.scheme == "ws" || u.scheme == "wss")
      · cases hrt : resourceTypeLabel entry.ResourceType
        · cases hct : contentTypeLabel entry.Response.Headers
          · cases hex : extensionLabel (goToLower u.path)
            · cases hxhr : xhrHeaderEvidence entry.Request.Headers
              · cases hroot : ((goToLower u.path) == "/" || (goToLower u.path) == "")
                · cases hapi : (goContains (goToLower u.path) "/api/"
                      || goContains (goToLower u.path) "/rest/"
                      || goContains (goToLower u.path) "/graphql")
                  · simp [hws, hrt, hct, hex, hxhr, hroot, hapi, List.findSome?]
                  · simp [hws, hrt, hct, hex, hxhr, hroot, hapi, List.findSome?]
                · simp [hws, hrt, hct, hex, hxhr, hroot, List.findSome?]
              · simp [hws, hrt, hct, hex, hxhr, List.findSome?]
            · simp [hws, hrt, hct, hex, List.findSome?]
          · simp [hws, hrt, hct, List.findSome?]
        · simp [hws, hrt, List.findSome?]
      · simp [hws, List.findSome?]
  · simp [hC]

/-- C1: for every filter state and every entry store whose index is built
by `AddEntry` over all positions (under any enumeration of the status
buckets of the Go map), the index-backed evaluation and the naive O(n)
re-scan return position lists with exactly the same set of positions. -/
theorem C1_index_and_naive_set_equal (env : GoEnv) (f : FilterState)
    (entries : List HAREntry) (statusBuckets : List (Int × List Int))
    (hperm : statusBuckets.Perm ((buildIndex env entries).byStatus)) :
    (FilterEntriesWithIndex env f entries (buildIndex env entries) statusBuckets).toFinset
      = (FilterEntries env f entries).toFinset := by
  ext x
  simp only [List.mem_toFinset]
  rw [mem_FilterEntriesWithIndex env f entries hperm x, mem_FilterEntries,
    keepEntry_iff]
  tauto

theorem C1_witness :
    ((buildIndex envTable witEntries).byStatus).Perm ((buildIndex envTable witEntries).byStatus)
    ∧ (FilterEntriesWithIndex envTable witState witEntries (buildIndex envTable witEntries)
          ((buildIndex envTable witEntries).byStatus)).toFinset
      = (FilterEntries envTable witState witEntries).toFinset :=
  ⟨List.Perm.refl _,
    C1_index_and_naive_set_equal envTable witState witEntries _ (List.Perm.refl _)⟩

/-- C2 (counterexample): the claim's example
`intersect([2,2,3,3,4],[1,2,3]) = [2,2,3,3]` is false on the code: the
probe is the second argument, so A-side duplicates collapse and the
result is `[2,3]`. -/
theorem C2_counterexample :
    IntersectIndices [2, 2, 3, 3, 4] [1, 2, 3] = [2, 3]
    ∧ IntersectIndices [2, 2, 3, 3, 4] [1, 2, 3] ≠ [2, 2, 3, 3] := by
  constructor <;> decide

/-- C2 (amended): `IntersectIndices` keeps exactly the elements of the
probe `b` occurring in `a`, in `b`'s order with `b`'s duplicates; any
intersection with `[]` is `[]`; the claim's examples hold with the
duplicate-preserving example written probe-side:
`intersect([1,2,3],[2,2,3,3,4]) = [2,2,3,3]`, while
`intersect([2,2,3,3,4],[1,2,3]) = [2,3]`. -/
theorem C2_intersect_semantics :
    (∀ a b : List Int, IntersectIndices a b = b.filter (fun v => decide (v ∈ a)))
    ∧ (∀ (a b : List Int) (x : Int), x ∈ IntersectIndices a b ↔ x ∈ a ∧ x ∈ b)
    ∧ (∀ a : List Int, IntersectIndices a [] = [])
    ∧ (∀ b : List Int, IntersectIndices [] b = [])
    ∧ IntersectIndices [1, 2, 3] [2, 3, 4] = [2, 3]
    ∧ IntersectIndices [1, 2, 3] [2, 2, 3, 3, 4] = [2, 2, 3, 3]
    ∧ IntersectIndices [2, 2, 3, 3, 4] [1, 2, 3] = [2, 3] := by
  refine ⟨intersectIndices_eq_filter, mem_intersectIndices, ?_, ?_, ?_, ?_, ?_⟩
  · intro a
    simp [IntersectIndices]
  · intro b
    simp [IntersectIndices]
  · decide
  · decide
  · decide

/-- C3 (counterexample): an entry whose URL does not parse
(`url.Parse("%zz")` fails) but which carries the resource-type hint
`image` is classified `"other"` by the code, while the claim's cascade
(rule 3 not consulting the URL) yields `"img"`. -/
theorem C3_counterexample :
    GetRequestType envNone c3Entry = "other"
    ∧ specCascadeC3 envNone c3Entry = "img"
    ∧ GetRequestType envNone c3Entry ≠ specCascadeC3 envNone c3Entry := by
  refine ⟨?_, ?_, ?_⟩ <;> decide

/-- C4: the error-set query over any enumeration of the built status
index returns exactly the positions whose status is `≥ 400` or `0`,
recomputed from the index at query time. -/
theorem C4_error_set_query (env : GoEnv) (entries : List HAREntry)
    (statusBuckets : List (Int × List Int))
    (hperm : statusBuckets.Perm ((buildIndex env entries).byStatus)) :
    (GetErrorIndices statusBuckets).toFinset
      = ((posRange entries.length).filter (fun i =>
          decide (400 ≤ (entryAt entries i).Response.Status
            ∨ (entryAt entries i).Response.Status = 0))).toFinset := by
  ext x
  simp only [List.mem_toFinset, List.mem_filter, decide_eq_true_eq]
  exact mem_getErrorIndices_perm env entries hperm x

theorem C4_witness :
    ((buildIndex envTable witEntries).byStatus).Perm ((buildIndex envTable witEntries).byStatus)
    ∧ (GetErrorIndices ((buildIndex envTable witEntries).byStatus)).toFinset
      = ((posRange witEntries.length).filter (fun i =>
          decide (400 ≤ (entryAt witEntries i).Response.Status
            ∨ (entryAt witEntries i).Response.Status = 0))).toFinset :=
  ⟨List.Perm.refl _, C4_error_set_query envTable witEntries _ (List.Perm.refl _)⟩

/-- C5 (counterexample): a run of 3 decoded entries fires 3 entry-added
notifications — one per entry — not the `⌈3/100⌉ = 1` events the claimed
batch-100 coalescing would allow. -/
theorem C5_counterexample :
    countEntryAdded (LoadHARFileStreaming envTable NewStreamingLoader c5Script).2 = 3
    ∧ ¬(countEntryAdded (LoadHARFileStreaming envTable NewStreamingLoader c5Script).2
        ≤ (3 + 99) / 100) := by
  constructor <;> decide

/-- C5 (amended): the loader fires exactly one entry-added notification
per decoded entry (the batching of size 100 is the UI collaborator's
redraw coalescing, and the loader's own hard-coded batch of 50 governs
only progress notifications). -/
theorem C5_entry_added_per_entry (env : GoEnv) (s : LoaderState)
    (items : List EntryItem) (trailingFail : Bool) :
    countEntryAdded (LoadHARFileStreaming env s (.run items trailingFail)).2
      = (okPrefix items).length := by
  obtain ⟨-, -, -, h4, -, -⟩ := parseEntriesAux_spec env items s 0
  have happ : ∀ (l : List LoadEvent) (ev : LoadEvent),
      countEntryAdded (l ++ [ev]) = countEntryAdded l + countEntryAdded [ev] := by
    intro l ev
    simp [countEntryAdded, List.countP_append]
  simp only [LoadHARFileStreaming, parseEntries]
  by_cases herr : (parseEntriesAux env s 0 items).2.2 = true
  · rw [if_pos herr, happ, h4]
    rfl
  · rw [if_neg herr]
    by_cases htf : trailingFail = true
    · rw [if_pos htf, happ, h4]
      rfl
    · rw [if_neg htf, happ, h4]
      rfl

/-- C6 (counterexample): with errors-only filtering, two status-bucket
enumerations of the same built index — both permutations of the status
index, as Go map iteration may produce on two calls with identical
inputs — yield differently ordered outputs, refuting order-identical
results across calls. -/
theorem C6_counterexample :
    bucketsA.Perm ((buildIndex envTable errEntries).byStatus)
    ∧ bucketsB.Perm ((buildIndex envTable errEntries).byStatus)
    ∧ FilterEntriesWithIndex envTable witState errEntries
        (buildIndex envTable errEntries) bucketsA
      ≠ FilterEntriesWithIndex envTable witState errEntries
          (buildIndex envTable errEntries) bucketsB := by
  have hA : (buildIndex envTable errEntries).byStatus = bucketsA := by decide
  refine ⟨?_, ?_, ?_⟩
  · rw [hA]
  · rw [hA]
    exact List.Perm.swap _ _ _
  · decide

/-- C6 (amended): evaluation is a deterministic function of the filter
state, entries, index and the status-bucket enumeration order; across two
enumerations of the same index the outputs are set-equal, and whenever
`errorsOnly` is off the enumeration is irrelevant and the ordered outputs
are identical. -/
theorem C6_determinism_given_enumeration (env : GoEnv) (f : FilterState)
    (entries : List HAREntry) (b1 b2 : List (Int × List Int))
    (h1 : b1.Perm ((buildIndex env entries).byStatus))
    (h2 : b2.Perm ((buildIndex env entries).byStatus)) :
    (FilterEntriesWithIndex env f entries (buildIndex env entries) b1).toFinset
      = (FilterEntriesWithIndex env f entries (buildIndex env entries) b2).toFinset
    ∧ (f.ShowErrorsOnly = false →
        FilterEntriesWithIndex env f entries (buildIndex env entries) b1
          = FilterEntriesWithIndex env f entries (buildIndex env entries) b2) := by
  constructor
  · ext x
    simp only [List.mem_toFinset]
    rw [mem_FilterEntriesWithIndex env f entries h1 x,
      mem_FilterEntriesWithIndex env f entries h2 x]
  · intro hso
    unfold FilterEntriesWithIndex
    simp [hso]

theorem C6_witness :
    ((buildIndex envTable errEntries).byStatus).Perm ((buildIndex envTable errEntries).byStatus)
    ∧ ((FilterEntriesWithIndex envTable witState errEntries (buildIndex envTable errEntries)
          ((buildIndex envTable errEntries).byStatus)).toFinset
        = (FilterEntriesWithIndex envTable witState errEntries (buildIndex envTable errEntries)
            ((buildIndex envTable errEntries).byStatus)).toFinset
      ∧ (witState.ShowErrorsOnly = false →
          FilterEntriesWithIndex envTable witState errEntries (buildIndex envTable errEntries)
              ((buildIndex envTable errEntries).byStatus)
            = FilterEntriesWithIndex envTable witState errEntries (buildIndex envTable errEntries)
                ((buildIndex envTable errEntries).byStatus))) :=
  ⟨List.Perm.refl _,
    C6_determinism_given_enumeration envTable witState errEntries _ _
      (List.Perm.refl _) (List.Perm.refl _)⟩

/-- C7 (counterexample): a status-0 GET whose request URL parses with an
empty host, with a referer whose host is `a.com` and a JSON content type:
the claim's rule 4 ("referer host differs from the request URL host")
fires, but the code requires both hosts non-empty and returns false. -/
theorem C7_counterexample :
    IsCORSError envTable c7Entry = false
    ∧ corsClaimC7 envTable c7Entry = true := by
  constructor <;> decide

/-- C8 (counterexample): window length 20000ms, chart width 80, bar 13 in
render order: the code assigns offset `13 × 2 = 26` (since 26 does not
exceed `80/3 = 26`), while the claimed formula `(13 mod (80/6)) × 2`
yields 0. -/
theorem C8_counterexample :
    renderStartPos 20000 80 13 0 = 26
    ∧ specOffsetC8 20000 80 13 0 = 0
    ∧ renderStartPos 20000 80 13 0 ≠ specOffsetC8 20000 80 13 0 := by
  refine ⟨?_, ?_, ?_⟩ <;> decide

/-- C8 (amended): offsets per regime — `0` when the window is at most
100ms; for windows over 10000ms, `i×2` when that does not exceed `W/3`
and `(i mod (W/6))×2` otherwise, in both cases never exceeding `W/3`;
otherwise truncation (not rounding) of `W × (start−earliest) / L`. -/
theorem C8_offset_regimes (maxDuration : ℚ) (chartWidth rowIndex : Nat)
    (relativeStart : ℚ) (hW : 6 ≤ chartWidth) :
    (maxDuration ≤ 100 → renderStartPos maxDuration chartWidth rowIndex relativeStart = 0)
    ∧ (10000 < maxDuration →
        renderStartPos maxDuration chartWidth rowIndex relativeStart
          = (if rowIndex * 2 ≤ chartWidth / 3 then Int.ofNat (rowIndex * 2)
             else Int.ofNat ((rowIndex % (chartWidth / 6)) * 2))
        ∧ renderStartPos maxDuration chartWidth rowIndex relativeStart
            ≤ Int.ofNat (chartWidth / 3))
    ∧ (100 < maxDuration → maxDuration ≤ 10000 →
        renderStartPos maxDuration chartWidth rowIndex relativeStart
          = goTrunc ((chartWidth : ℚ) * relativeStart / maxDuration)) := by
  refine ⟨?_, ?_, ?_⟩
  · intro h
    simp [renderStartPos, h]
  · intro h
    have hn : ¬(maxDuration ≤ 100) := by linarith
    constructor
    · simp only [renderStartPos, if_neg hn, if_pos h]
      by_cases hc : rowIndex * 2 > chartWidth / 3
      · rw [if_pos hc, if_neg (by omega)]
      · rw [if_neg hc, if_pos (by omega)]
    · simp only [renderStartPos, if_neg hn, if_pos h]
      by_cases hc : rowIndex * 2 > chartWidth / 3
      · rw [if_pos hc]
        have h2 : rowIndex % (chartWidth / 6) + 1 ≤ chartWidth / 6 :=
          Nat.succ_le_of_lt (Nat.mod_lt _ (by omega))
        have h3 : (rowIndex % (chartWidth / 6) + 1) * 2 ≤ (chartWidth / 6) * 2 :=
          Nat.mul_le_mul_right 2 h2
        have h4 : (chartWidth / 6) * 2 ≤ chartWidth / 3 := by omega
        have h5 : (rowIndex % (chartWidth / 6)) * 2 ≤ (rowIndex % (chartWidth / 6) + 1) * 2 :=
          Nat.mul_le_mul_right 2 (Nat.le_succ _)
        exact Int.ofNat_le.mpr (le_trans h5 (le_trans h3 h4))
      · rw [if_neg hc]
        exact Int.ofNat_le.mpr (by omega)
  · intro h1 h2
    have hn : ¬(maxDuration ≤ 100) := by linarith
    have hn2 : ¬(maxDuration > 10000) := by linarith
    simp [renderStartPos, hn, hn2]

theorem C8_witness :
    6 ≤ 80 ∧ renderStartPos 20000 80 13 0 ≤ Int.ofNat (80 / 3) :=
  ⟨by decide, ((C8_offset_regimes 20000 80 13 0 (by decide)).2.1 (by norm_num)).2⟩

/-- C9: any failing streaming run (file open, pre-entries token error,
per-entry decode error, or trailing token error) reports exactly one
error event, emits no success event, and leaves the store and index
holding exactly the entries decoded before the failure, fully indexed. -/
theorem C9_failure_semantics (env : GoEnv) (script : LoadScript)
    (h : scriptFails script = true) :
    countErrored (LoadHARFileStreaming env NewStreamingLoader script).2 = 1
    ∧ countCompleted (LoadHARFileStreaming env NewStreamingLoader script).2 = 0
    ∧ (LoadHARFileStreaming env NewStreamingLoader script).1.entries
        = okPrefix (scriptItems script)
    ∧ (LoadHARFileStreaming env NewStreamingLoader script).1.index
        = buildIndex env (okPrefix (scriptItems script)) := by
  cases script with
  | openFail => exact ⟨rfl, rfl, rfl, rfl⟩
  | preLogFail => exact ⟨rfl, rfl, rfl, rfl⟩
  | run items tf =>
    obtain ⟨h1, h2, h3, h4, h5, h6⟩ := parseEntriesAux_spec env items NewStreamingLoader 0
    have happ : ∀ (l : List LoadEvent) (ev : LoadEvent),
        countErrored (l ++ [ev]) = countErrored l + countErrored [ev]
        ∧ countCompleted (l ++ [ev]) = countCompleted l + countCompleted [ev] := by
      intro l ev
      constructor <;> simp [countErrored, countCompleted, List.countP_append]
    simp only [LoadHARFileStreaming, parseEntries]
    by_cases herr : (parseEntriesAux env NewStreamingLoader 0 items).2.2 = true
    · rw [if_pos herr]
      refine ⟨?_, ?_, ?_, ?_⟩
      · rw [(happ _ _).1, h5]
        rfl
      · rw [(happ _ _).2, h6]
        rfl
      · rw [h1]
        simp [NewStreamingLoader, scriptItems]
      · rw [h2]
        simp [NewStreamingLoader, NewEntryIndex, buildIndex, scriptItems]
    · rw [if_neg herr]
      have htf : tf = true := by
        rw [h3] at herr
        simp only [scriptFails, Bool.or_eq_true] at h
        rcases h with hx | hx
        · exact absurd hx herr
        · exact hx
      rw [if_pos htf]
      refine ⟨?_, ?_, ?_, ?_⟩
      · rw [(happ _ _).1, h5]
        rfl
      · rw [(happ _ _).2, h6]
        rfl
      · rw [h1]
        simp [NewStreamingLoader, scriptItems]
      · rw [h2]
        simp [NewStreamingLoader, NewEntryIndex, buildIndex, scriptItems]

theorem C9_witness :
    scriptFails c9Script = true
    ∧ (countErrored (LoadHARFileStreaming envTable NewStreamingLoader c9Script).2 = 1
      ∧ countCompleted (LoadHARFileStreaming envTable NewStreamingLoader c9Script).2 = 0
      ∧ (LoadHARFileStreaming envTable NewStreamingLoader c9Script).1.entries
          = okPrefix (scriptItems c9Script)
      ∧ (LoadHARFileStreaming envTable NewStreamingLoader c9Script).1.index
          = buildIndex envTable (okPrefix (scriptItems c9Script))) :=
  ⟨rfl, C9_failure_semantics envTable c9Script rfl⟩

/-- C10: the filtered export copies exactly the entries at the in-bounds
positions, verbatim and in probe order, silently skipping out-of-range
positions (negative or `≥ n`), and preserves the log version. -/
theorem C10_filtered_export (orig : HARFile) (idxs : List Int) :
    (SaveFilteredHAR orig idxs).Log.Version = orig.Log.Version
    ∧ (SaveFilteredHAR orig idxs).Log.Entries
        = (idxs.filter (fun i =>
            decide (0 ≤ i ∧ i < (orig.Log.Entries.length : Int)))).map
            (fun i => orig.Log.Entries.getD i.toNat default) := by
  refine ⟨rfl, ?_⟩
  unfold SaveFilteredHAR
  rw [foldl_if_append]
  simp

end HarTui

